import Mathlib

/-!
Verification development for `MergeGistDX.py`, a script that merges small
GIST OpenDX sub-grid files back into one large grid.  The script is embedded
shallowly: Python floats become exact rationals (`ℚ`), Python dicts become
association lists with unique keys, Python exceptions (`exit`, `IndexError`,
`AssertionError`, `KeyError`, `ValueError`) become `Except` error values.
-/

set_option maxRecDepth 10000

deriving instance DecidableEq for Except

/-- Coordinate triples `(x, y, z)`, modelled as exact rationals. -/
abbrev Coord : Type := ℚ × ℚ × ℚ

/-- Python dict from rounded coordinates to grid values, modelled as an
association list whose keys are unique for maps built by `vmInsert`. -/
abbrev VoxelMap : Type := List (Coord × ℚ)

/-- Lookup of a key in a `VoxelMap` (first binding wins). -/
def vmFind : VoxelMap → Coord → Option ℚ
  | [], _ => none
  | p :: m, k => if k = p.1 then some p.2 else vmFind m k

/-- Removal of every binding of a key from a `VoxelMap`. -/
def vmErase : VoxelMap → Coord → VoxelMap
  | [], _ => []
  | p :: m, k => if p.1 = k then vmErase m k else p :: vmErase m k

/-- Python `d[k] = v`: bind `k` to `v`, overwriting any previous binding. -/
def vmInsert (m : VoxelMap) (k : Coord) (v : ℚ) : VoxelMap :=
  vmErase m k ++ [(k, v)]

/-- Python `d1.update(d2)` (line 83 of the script): insert every binding of
`d2` into `d1`, in order, overwriting on key collision. -/
def vmUpdate (m1 m2 : VoxelMap) : VoxelMap :=
  m2.foldl (fun m p => vmInsert m p.1 p.2) m1

/-- Python 2 `round`: round half away from zero, returning an integer. -/
def pyRound (q : ℚ) : ℤ :=
  if 0 ≤ q then ⌊q + 1/2⌋ else ⌈q - 1/2⌉

/-- Python `round(q, 3)`: round to three decimal places. -/
def round3 (q : ℚ) : ℚ := (pyRound (q * 1000) : ℚ) / 1000

/-- Fatal errors raised while reading one DX file: `exit(...)` on a bad
delta line, Python `IndexError` on `data_array[c]`, and the `assert` at the
end of `OpenDX.read` (an integrity failure). -/
inductive ReadErr : Type where
  | formatError : ReadErr
  | indexError : ReadErr
  | integrityError : ReadErr
  deriving DecidableEq, Repr

/-- Fatal errors of the merge itself: a wrapped read error, a Python
`ValueError` (`max`/`min` of an empty dict, `np.linspace` with a negative
count), an `AssertionError` from the merge invariants, and a `KeyError`
when a looked-up voxel is missing. -/
inductive MergeErr : Type where
  | read : ReadErr → MergeErr
  | valueError : MergeErr
  | integrityError : MergeErr
  | missingVoxel : MergeErr
  deriving DecidableEq, Repr

/-- Nonzero components of one `delta` header line (the Python list
comprehension `[float(x) for x in elem[1:4] if float(x) != 0.0]`). -/
def deltaNonzeros (t : ℚ × ℚ × ℚ) : List ℚ :=
  [t.1, t.2.1, t.2.2].filter (fun q => decide (q ≠ 0))

/-- Number of nonzero components of a delta line. -/
def nonzeroCount (t : ℚ × ℚ × ℚ) : ℕ := (deltaNonzeros t).length

/-- Parsing of one `delta` header line (lines 198–203 of the script): keep
the single nonzero component, `exit` otherwise. -/
def parseDelta (t : ℚ × ℚ × ℚ) : Except ReadErr ℚ :=
  match deltaNonzeros t with
  | [d] => .ok d
  | _ => .error .formatError

/-- Parsing of all `delta` lines of a header in file order; each parsed line
overwrites `self.delta` (initially `0.0` from `OpenDX.__init__`). -/
def parseDeltas : List (ℚ × ℚ × ℚ) → ℚ → Except ReadErr ℚ
  | [], d => .ok d
  | t :: ts, _ =>
    match parseDelta t with
    | .error e => .error e
    | .ok d => parseDeltas ts d

/-- Surface (halo) test of lines 223–231: a grid index whose `x`, `y` or `z`
component is `0` or `count - 1` on its axis. -/
def isHalo (cnt : ℕ × ℕ × ℕ) (i : ℕ × ℕ × ℕ) : Bool :=
  i.1 == 0 || i.1 == cnt.1 - 1 || i.2.1 == 0 || i.2.1 == cnt.2.1 - 1 ||
    i.2.2 == 0 || i.2.2 == cnt.2.2 - 1

/-- All grid indices in the nested loop order of lines 218–220:
`x` outer, `y` middle, `z` inner. -/
def gridIndices (cnt : ℕ × ℕ × ℕ) : List (ℕ × ℕ × ℕ) :=
  (List.range cnt.1).flatMap (fun x =>
    (List.range cnt.2.1).flatMap (fun y =>
      (List.range cnt.2.2).map (fun z => (x, y, z))))

/-- Interior (retained) indices: the grid indices that are not halo indices,
in the same nested order. -/
def interiorIndices (cnt : ℕ × ℕ × ℕ) : List (ℕ × ℕ × ℕ) :=
  (gridIndices cnt).filter (fun i => !isHalo cnt i)

/-- Flat position of a grid index in the raster order of the payload. -/
def flatIdx (cnt : ℕ × ℕ × ℕ) (i : ℕ × ℕ × ℕ) : ℕ :=
  i.1 * (cnt.2.1 * cnt.2.2) + (i.2.1 * cnt.2.2 + i.2.2)

/-- Surface-voxel count formula of lines 244–247 (and 74–77):
`a*b*2 + b*(c-2)*2 + (a-2)*(c-2)*2`, over the integers as in Python. -/
def surfaceCount (cnt : ℕ × ℕ × ℕ) : ℤ :=
  (cnt.1 : ℤ) * (cnt.2.1 : ℤ) * 2 + (cnt.2.1 : ℤ) * ((cnt.2.2 : ℤ) - 2) * 2 +
    ((cnt.1 : ℤ) - 2) * ((cnt.2.2 : ℤ) - 2) * 2

/-- Absolute coordinate of a grid index, rounded to three decimals per axis
(lines 233–235): `round(origin + delta * index, 3)` componentwise. -/
def coordOf (origin : Coord) (delta : ℚ) (i : ℕ × ℕ × ℕ) : Coord :=
  (round3 (origin.1 + delta * i.1),
   round3 (origin.2.1 + delta * i.2.1),
   round3 (origin.2.2 + delta * i.2.2))

/-- Data-dict loop of lines 216–238: walk the given indices keeping the flat
cursor `c`; halo indices advance the cursor only, interior indices read
`data_array[c]` (an `IndexError` when out of bounds) and insert the rounded
coordinate.  Returns the final cursor and the dict. -/
def readWalk (origin : Coord) (delta : ℚ) (cnt : ℕ × ℕ × ℕ) (data : List ℚ) :
    List (ℕ × ℕ × ℕ) → ℕ → VoxelMap → Except ReadErr (ℕ × VoxelMap)
  | [], c, m => .ok (c, m)
  | i :: is, c, m =>
    if isHalo cnt i then readWalk origin delta cnt data is (c + 1) m
    else
      match data.get? c with
      | none => .error .indexError
      | some v =>
        readWalk origin delta cnt data is (c + 1)
          (vmInsert m (coordOf origin delta i) v)

/-- Explicit form of the data dict: fold over the interior indices in nested
order, each mapped to the payload value at its flat position. -/
def specDict (origin : Coord) (delta : ℚ) (cnt : ℕ × ℕ × ℕ) (data : List ℚ) :
    VoxelMap :=
  (interiorIndices cnt).foldl
    (fun m i => vmInsert m (coordOf origin delta i) (data.getD (flatIdx cnt i) 0))
    []

/-- Voxel-reading part of `OpenDX.read` (lines 216–250): run the data-dict
loop over all grid indices, then check the post-condition
`len(self.data_array) - A == len(self.data_dict)` of line 250. -/
def readVoxels (origin : Coord) (delta : ℚ) (cnt : ℕ × ℕ × ℕ)
    (data : List ℚ) : Except ReadErr VoxelMap :=
  match readWalk origin delta cnt data (gridIndices cnt) 0 [] with
  | .error e => .error e
  | .ok r =>
    if (data.length : ℤ) - surfaceCount cnt = (r.2.length : ℤ) then .ok r.2
    else .error .integrityError

/-- Parsed content of one DX input file: the header fields extracted by the
header loop of `OpenDX.read` and the flattened numeric payload. -/
structure DXFile : Type where
  origin : Coord
  deltaLines : List (ℚ × ℚ × ℚ)
  gridcounts : ℕ × ℕ × ℕ
  ngridpoints : ℤ
  payload : List ℚ
  deriving DecidableEq, Repr

/-- Whole of `OpenDX.read` for one file: parse the delta lines (order
matters, `exit` on the first bad one), then build the data dict and check
the post-condition.  Returns the parsed spacing and the dict. -/
def readFile (f : DXFile) : Except ReadErr (ℚ × VoxelMap) :=
  match parseDeltas f.deltaLines 0 with
  | .error e => .error e
  | .ok d =>
    match readVoxels f.origin d f.gridcounts f.payload with
    | .error e => .error e
    | .ok m => .ok (d, m)

/-- Maximum of a list of rationals (Python `max` over dict keys through a
component; the value is independent of which maximal element Python picks). -/
def listMax : List ℚ → ℚ
  | [] => 0
  | [q] => q
  | q :: r :: t => max q (listMax (r :: t))

/-- Minimum of a list of rationals. -/
def listMin : List ℚ → ℚ
  | [] => 0
  | [q] => q
  | q :: r :: t => min q (listMin (r :: t))

/-- The `x` components of the keys of a `VoxelMap`. -/
def keysX (m : VoxelMap) : List ℚ := m.map (fun p => p.1.1)

/-- The `y` components of the keys of a `VoxelMap`. -/
def keysY (m : VoxelMap) : List ℚ := m.map (fun p => p.1.2.1)

/-- The `z` components of the keys of a `VoxelMap`. -/
def keysZ (m : VoxelMap) : List ℚ := m.map (fun p => p.1.2.2)

/-- Running state of the file loop of `main` (lines 42–83). -/
structure MergeAcc : Type where
  spacing : ℚ
  origin : Coord
  ngrid : ℤ
  dict : VoxelMap
  deriving DecidableEq, Repr

/-- Initial accumulator of `main`: `box_spacing = 0.0`, no origin yet,
`box_ngridpoints = 0`, empty dict. -/
def initAcc : MergeAcc := ⟨0, (0, 0, 0), 0, []⟩

/-- File loop of `main` (lines 53–83): read each file, record its spacing
(last file wins), on the first file set the provisional combined origin to
the file origin plus one spacing per axis, accumulate
`ngridpoints - surfaceCount`, and merge the file dict into the global dict. -/
def processFiles : List DXFile → ℕ → MergeAcc → Except ReadErr MergeAcc
  | [], _, acc => .ok acc
  | f :: fs, idx, acc =>
    match readFile f with
    | .error e => .error e
    | .ok r =>
      processFiles fs (idx + 1)
        { spacing := r.1
          origin :=
            if idx = 0 then
              (f.origin.1 + r.1, f.origin.2.1 + r.1, f.origin.2.2 + r.1)
            else acc.origin
          ngrid := acc.ngrid + f.ngridpoints - surfaceCount f.gridcounts
          dict := vmUpdate acc.dict r.2 }

/-- Provisional combined origin contributed by the first input file: its
declared origin shifted by one parsed spacing on every axis. -/
def firstOrigin (f : DXFile) : Coord :=
  match readFile f with
  | .ok r => (f.origin.1 + r.1, f.origin.2.1 + r.1, f.origin.2.2 + r.1)
  | .error _ => (0, 0, 0)

/-- Derived per-axis grid count of lines 100–102:
`int(round((max - min)/box_spacing + 1))`. -/
def cntOf (lo hi s : ℚ) : ℤ := pyRound ((hi - lo) / s + 1)

/-- Derived `x` count of the combined box. -/
def cntX (acc : MergeAcc) : ℤ :=
  cntOf (listMin (keysX acc.dict)) (listMax (keysX acc.dict)) acc.spacing

/-- Derived `y` count of the combined box. -/
def cntY (acc : MergeAcc) : ℤ :=
  cntOf (listMin (keysY acc.dict)) (listMax (keysY acc.dict)) acc.spacing

/-- Derived `z` count of the combined box. -/
def cntZ (acc : MergeAcc) : ℤ :=
  cntOf (listMin (keysZ acc.dict)) (listMax (keysZ acc.dict)) acc.spacing

/-- The three `assert` statements of lines 105–111: the accumulated expected
count equals the dict size, equals the product of the derived counts, and
the provisional origin equals the per-axis minimum coordinate. -/
def mergeChecks (acc : MergeAcc) : Bool :=
  decide (acc.ngrid = (acc.dict.length : ℤ)) &&
    decide (acc.ngrid = cntX acc * cntY acc * cntZ acc) &&
    decide (acc.origin =
      (listMin (keysX acc.dict), listMin (keysY acc.dict), listMin (keysZ acc.dict)))

/-- Exact model of `np.linspace(lo, hi, num)`: `num` evenly spaced samples
from `lo` to `hi` inclusive. -/
def linspace (lo hi : ℚ) (num : ℤ) : List ℚ :=
  if num ≤ 0 then []
  else if num = 1 then [lo]
  else (List.range num.toNat).map (fun i => lo + i * ((hi - lo) / (num - 1)))

/-- Derived `x` coordinate sequence (line 116). -/
def axisX (acc : MergeAcc) : List ℚ :=
  linspace (listMin (keysX acc.dict)) (listMax (keysX acc.dict)) (cntX acc)

/-- Derived `y` coordinate sequence (line 117). -/
def axisY (acc : MergeAcc) : List ℚ :=
  linspace (listMin (keysY acc.dict)) (listMax (keysY acc.dict)) (cntY acc)

/-- Derived `z` coordinate sequence (line 118). -/
def axisZ (acc : MergeAcc) : List ℚ :=
  linspace (listMin (keysZ acc.dict)) (listMax (keysZ acc.dict)) (cntZ acc)

/-- Cartesian iteration order of the output loops (lines 121–123):
`x` outer, `y` middle, `z` inner. -/
def tripleList (xs ys zs : List ℚ) : List Coord :=
  xs.flatMap (fun x => ys.flatMap (fun y => zs.map (fun z => (x, y, z))))

/-- Output loop body of lines 121–127: look every triple up in the global
dict under three-decimal rounding, appending values; a missing coordinate is
a fatal `KeyError`. -/
def linLoop (m : VoxelMap) : List ℚ → List Coord → Except MergeErr (List ℚ)
  | acc, [] => .ok acc
  | acc, t :: ts =>
    match vmFind m (round3 t.1, round3 t.2.1, round3 t.2.2) with
    | none => .error .missingVoxel
    | some v => linLoop m (acc ++ [v]) ts

/-- Header and payload of the merged output file (the `LargeBox` object of
lines 134–138). -/
structure MergeOut : Type where
  origin : Coord
  gridcounts : ℤ × ℤ × ℤ
  ngridpoints : ℤ
  delta : ℚ
  data : List ℚ
  deriving DecidableEq, Repr

/-- Post-processing of `main` after the file loop (lines 88–139): derive the
extents and counts from the global dict (`max`/`min` of an empty dict is a
`ValueError`), run the three asserts, build the linspace axes (a negative
count is a `ValueError` in numpy), linearize, check the final assert of
line 129, and only then produce the output file. -/
def mergePost (acc : MergeAcc) : Except MergeErr MergeOut :=
  if acc.dict = [] then .error .valueError
  else if mergeChecks acc then
    if cntX acc < 0 ∨ cntY acc < 0 ∨ cntZ acc < 0 then .error .valueError
    else
      match linLoop acc.dict [] (tripleList (axisX acc) (axisY acc) (axisZ acc)) with
      | .error e => .error e
      | .ok arr =>
        if (arr.length : ℤ) = acc.ngrid then
          .ok ⟨acc.origin, (cntX acc, cntY acc, cntZ acc), acc.ngrid, acc.spacing, arr⟩
        else .error .integrityError
  else .error .integrityError

/-- Whole merge (`main` without the excluded CLI/glob/printing concerns):
process all files in the given order, then post-process. -/
def mergeMain (fs : List DXFile) : Except MergeErr MergeOut :=
  match processFiles fs 0 initAcc with
  | .error e => .error (.read e)
  | .ok acc => mergePost acc

/-- True exactly when the merge wrote an output file. -/
def isOutput : Except MergeErr MergeOut → Bool
  | .ok _ => true
  | .error _ => false

/-- Dict produced for one file by `OpenDX.read`, when reading succeeds. -/
def fileDict (f : DXFile) : Option VoxelMap :=
  match readFile f with
  | .ok r => some r.2
  | .error _ => none

/-- Value bound to a key by the last file (in processing order) whose dict
contains the key; `none` when no file contains it. -/
def lastHit (fs : List DXFile) (k : Coord) : Option ℚ :=
  (fs.filterMap (fun f => (fileDict f).bind (fun d => vmFind d k))).getLast?

/-! ### Lemmas about the data-dict walk -/

lemma listGet?_of_lt (l : List ℚ) (n : ℕ) (h : n < l.length) :
    l.get? n = some (l.getD n 0) := by
  simp [List.get?_eq_getElem?, List.getD_eq_getElem?_getD, List.getElem?_eq_getElem h]

/-- The walk over a list of indices whose flat positions continue the cursor
succeeds when the payload is long enough, advances the cursor by the list
length, and performs exactly the interior inserts with the payload value at
each index's flat position. -/
lemma readWalk_spec (origin : Coord) (delta : ℚ) (cnt : ℕ × ℕ × ℕ)
    (data : List ℚ) :
    ∀ (is : List (ℕ × ℕ × ℕ)) (c0 : ℕ) (m : VoxelMap),
      (∀ (p : ℕ) (i : ℕ × ℕ × ℕ), is.get? p = some i → flatIdx cnt i = c0 + p) →
      c0 + is.length ≤ data.length →
      readWalk origin delta cnt data is c0 m =
        .ok (c0 + is.length,
          (is.filter (fun i => !isHalo cnt i)).foldl
            (fun m' i =>
              vmInsert m' (coordOf origin delta i) (data.getD (flatIdx cnt i) 0))
            m) := by
  intro is
  induction is with
  | nil => intro c0 m _ _; simp [readWalk]
  | cons i is ih =>
    intro c0 m hpos hlen
    have hi : flatIdx cnt i = c0 := by simpa using hpos 0 i rfl
    have hpos' : ∀ (p : ℕ) (j : ℕ × ℕ × ℕ), is.get? p = some j →
        flatIdx cnt j = (c0 + 1) + p := by
      intro p j hj
      have h2 := hpos (p + 1) j (by simpa using hj)
      omega
    have hlen' : (c0 + 1) + is.length ≤ data.length := by
      simp only [List.length_cons] at hlen; omega
    have harith : (c0 + 1) + is.length = c0 + (i :: is).length := by
      simp only [List.length_cons]; omega
    simp only [readWalk]
    by_cases hh : isHalo cnt i = true
    · rw [if_pos hh, List.filter_cons_of_neg (by simp [hh]), ih (c0 + 1) m hpos' hlen',
        harith]
    · have hc : c0 < data.length := by
        simp only [List.length_cons] at hlen; omega
      rw [if_neg hh, listGet?_of_lt data c0 hc]
      rw [List.filter_cons_of_pos (by simp [hh])]
      simp only [List.foldl_cons]
      rw [ih (c0 + 1) _ hpos' hlen', harith, hi]

/-- The walk hits the Python `IndexError` when some interior index in the
list has a flat position past the payload's end. -/
lemma readWalk_oob (origin : Coord) (delta : ℚ) (cnt : ℕ × ℕ × ℕ)
    (data : List ℚ) :
    ∀ (is : List (ℕ × ℕ × ℕ)) (c0 : ℕ) (m : VoxelMap) (p : ℕ) (i : ℕ × ℕ × ℕ),
      is.get? p = some i → isHalo cnt i = false → data.length ≤ c0 + p →
      readWalk origin delta cnt data is c0 m = .error .indexError := by
  intro is
  induction is with
  | nil => intro c0 m p i hp; simp at hp
  | cons i is ih =>
    intro c0 m p j hp hhalo hlen
    simp only [readWalk]
    cases p with
    | zero =>
      have hj : j = i := by simpa using hp.symm
      subst hj
      rw [if_neg (by simp [hhalo])]
      have hn : data.get? c0 = none := List.get?_eq_none.mpr (by omega)
      rw [hn]
    | succ p =>
      have hp' : is.get? p = some j := by simpa using hp
      by_cases hh : isHalo cnt i = true
      · rw [if_pos hh]
        exact ih (c0 + 1) m p j hp' hhalo (by omega)
      · rw [if_neg hh]
        cases hg : data.get? c0 with
        | none => rfl
        | some v => exact ih (c0 + 1) _ p j hp' hhalo (by omega)

/-! ### The flat position of each grid index equals its visit rank -/

lemma range_flatMap_mul (n k : ℕ) :
    (List.range n).flatMap (fun i => (List.range k).map (fun j => i * k + j)) =
      List.range (n * k) := by
  induction n with
  | zero => simp
  | succ n ih =>
    rw [List.range_succ, List.flatMap_append, ih, Nat.succ_mul, List.range_add]
    simp

lemma flatMap_range_shift (o b c : ℕ) :
    (List.range b).flatMap (fun y => (List.range c).map (fun z => o + (y * c + z))) =
      (List.range (b * c)).map (fun t => o + t) := by
  induction b with
  | zero => simp
  | succ b ih =>
    rw [List.range_succ, List.flatMap_append, ih, Nat.succ_mul, List.range_add,
      List.map_append, List.map_map]
    simp
    intro u hu
    omega

lemma map_flatIdx_gridIndices (a b c : ℕ) :
    (gridIndices (a, b, c)).map (flatIdx (a, b, c)) =
      List.range (a * (b * c)) := by
  simp only [gridIndices, List.map_flatMap, List.map_map, Function.comp_def,
    flatIdx]
  simp only [flatMap_range_shift]
  exact range_flatMap_mul a (b * c)

lemma length_gridIndices (a b c : ℕ) :
    (gridIndices (a, b, c)).length = a * (b * c) := by
  have h := congrArg List.length (map_flatIdx_gridIndices a b c)
  simpa using h

lemma flatIdx_get?_gridIndices (a b c : ℕ) (p : ℕ) (i : ℕ × ℕ × ℕ)
    (h : (gridIndices (a, b, c)).get? p = some i) : flatIdx (a, b, c) i = p := by
  have hp : p < (gridIndices (a, b, c)).length := by
    by_contra hc
    rw [List.get?_eq_none.mpr (by omega)] at h
    cases h
  have hmap := congrArg (fun l => l.get? p) (map_flatIdx_gridIndices a b c)
  simp only [List.get?_map] at hmap
  rw [h, List.get?_range (by rwa [length_gridIndices] at hp)] at hmap
  simpa using hmap

/-- Characterization of the voxel-reading part of `OpenDX.read`: with a long
enough payload, it builds exactly `specDict` and then applies the
post-condition check of line 250. -/
lemma readVoxels_spec (origin : Coord) (delta : ℚ) (cnt : ℕ × ℕ × ℕ)
    (data : List ℚ) (h : cnt.1 * (cnt.2.1 * cnt.2.2) ≤ data.length) :
    readVoxels origin delta cnt data =
      if (data.length : ℤ) - surfaceCount cnt =
          ((specDict origin delta cnt data).length : ℤ) then
        .ok (specDict origin delta cnt data)
      else .error .integrityError := by
  obtain ⟨a, b, c⟩ := cnt
  have hw := readWalk_spec origin delta (a, b, c) data (gridIndices (a, b, c)) 0 []
    (fun p i hpi => by simpa using flatIdx_get?_gridIndices a b c p i hpi)
    (by rw [length_gridIndices]; simpa using h)
  simp only [readVoxels, hw]
  rfl

/-- Payload list used by concrete instances: `n` values `0, 1, …, n-1`. -/
def pay (n : ℕ) : List ℚ := (List.range n).map (fun k => (k : ℚ))

/-- C1: for every parsed sub-grid file (with payload covering the declared
grid), the data-dict loop walks all grid indices in nested order `x` outer,
`y` middle, `z` inner; every halo index advances the flat cursor without an
insert, and every interior index inserts the key
`round3(origin + spacing*index)` per axis bound to the flat value at the
current cursor, which equals the index's flat raster position. -/
theorem parse_cursor_walk_c1 (origin : Coord) (delta : ℚ) (cnt : ℕ × ℕ × ℕ)
    (data : List ℚ) (h : cnt.1 * (cnt.2.1 * cnt.2.2) ≤ data.length) :
    readWalk origin delta cnt data (gridIndices cnt) 0 [] =
      .ok (cnt.1 * (cnt.2.1 * cnt.2.2), specDict origin delta cnt data) := by
  obtain ⟨a, b, c⟩ := cnt
  have hw := readWalk_spec origin delta (a, b, c) data (gridIndices (a, b, c)) 0 []
    (fun p i hpi => by simpa using flatIdx_get?_gridIndices a b c p i hpi)
    (by rw [length_gridIndices]; simpa using h)
  rw [hw, length_gridIndices, Nat.zero_add]
  rfl

/-- Witness for C1 at a concrete 3×3×4 grid with payload `0,…,35`: the walk
succeeds and the dict holds exactly the two interior voxels, keyed by their
rounded coordinates and valued at flat cursor positions 17 and 18. -/
theorem parse_cursor_walk_c1_witness :
    readWalk ((0 : ℚ), (0 : ℚ), (0 : ℚ)) 1 (3, 3, 4) (pay 36)
        (gridIndices (3, 3, 4)) 0 [] =
      .ok (36, specDict ((0 : ℚ), (0 : ℚ), (0 : ℚ)) 1 (3, 3, 4) (pay 36)) ∧
    specDict ((0 : ℚ), (0 : ℚ), (0 : ℚ)) 1 (3, 3, 4) (pay 36) =
      [(((1 : ℚ), (1 : ℚ), (1 : ℚ)), 17), (((1 : ℚ), (1 : ℚ), (2 : ℚ)), 18)] :=
  ⟨parse_cursor_walk_c1 ((0 : ℚ), (0 : ℚ), (0 : ℚ)) 1 (3, 3, 4) (pay 36) (by decide),
   by with_unfolding_all decide⟩

/-- C5: reading a file checks the post-condition that the flat payload
length minus the surface-count of the declared gridcounts equals the size of
the produced dict, and fails with the integrity error when violated. -/
theorem parse_postcondition_c5 (origin : Coord) (delta : ℚ) (cnt : ℕ × ℕ × ℕ)
    (data : List ℚ) (h : cnt.1 * (cnt.2.1 * cnt.2.2) ≤ data.length) :
    readVoxels origin delta cnt data =
      if (data.length : ℤ) - surfaceCount cnt =
          ((specDict origin delta cnt data).length : ℤ) then
        .ok (specDict origin delta cnt data)
      else .error .integrityError :=
  readVoxels_spec origin delta cnt data h

/-- Witness for C5: a 3×3×3 grid with a 28-value payload has
`28 - 26 = 2 ≠ 1` dict entries, so reading fails with the integrity error. -/
theorem parse_postcondition_c5_witness :
    readVoxels ((0 : ℚ), (0 : ℚ), (0 : ℚ)) 1 (3, 3, 3) (pay 28) =
      .error .integrityError :=
  (parse_postcondition_c5 ((0 : ℚ), (0 : ℚ), (0 : ℚ)) 1 (3, 3, 3) (pay 28)
      (by decide)).trans (by with_unfolding_all decide)

/-- Counterexample to C8 as stated: parsing a 3×3×3 sub-grid with a 27-value
payload produces a dict with one entry (index `(1,1,1)` is interior), not
zero entries. -/
theorem all_halo_3cube_c8_counterexample :
    readVoxels ((0 : ℚ), (0 : ℚ), (0 : ℚ)) 1 (3, 3, 3) (pay 27) =
        .ok [(((1 : ℚ), (1 : ℚ), (1 : ℚ)), 13)] ∧
      (readVoxels ((0 : ℚ), (0 : ℚ), (0 : ℚ)) 1 (3, 3, 3) (pay 27)).map
          List.length ≠ .ok 0 := by
  constructor
  · with_unfolding_all decide
  · with_unfolding_all decide

/-- C8 (amended): in a 3×3×3 sub-grid, 26 of the 27 indices lie on the halo;
the single interior index `(1,1,1)` survives, so parsing contributes exactly
one voxel, keyed by its rounded coordinate and valued at flat position 13. -/
theorem single_interior_3cube_c8 (origin : Coord) (delta : ℚ) (data : List ℚ)
    (h : data.length = 27) :
    readVoxels origin delta (3, 3, 3) data =
      .ok [(coordOf origin delta (1, 1, 1), data.getD 13 0)] := by
  have hs := readVoxels_spec origin delta (3, 3, 3) data (by rw [h]; decide)
  have hint : interiorIndices (3, 3, 3) = [(1, 1, 1)] := by decide
  have hd : specDict origin delta (3, 3, 3) data =
      [(coordOf origin delta (1, 1, 1), data.getD 13 0)] := by
    simp only [specDict, hint, List.foldl_cons, List.foldl_nil]
    rfl
  rw [hs, hd, h]
  norm_num [surfaceCount]

/-- Witness for the amended C8 at origin `(1,2,3)`, spacing `1/2`. -/
theorem single_interior_3cube_c8_witness :
    readVoxels ((1 : ℚ), (2 : ℚ), (3 : ℚ)) (1/2) (3, 3, 3) (pay 27) =
      .ok [(coordOf ((1 : ℚ), (2 : ℚ), (3 : ℚ)) (1/2) (1, 1, 1),
            (pay 27).getD 13 0)] :=
  single_interior_3cube_c8 ((1 : ℚ), (2 : ℚ), (3 : ℚ)) (1/2) (pay 27) (by decide)

/-- C10: when the flat payload is shorter than the declared grid size and
some interior index has a flat position past the payload's end, reading
fails with the index error (the guarded-lookup branch), before the
integrity post-condition is ever reached. -/
theorem payload_short_oob_c10 (origin : Coord) (delta : ℚ) (cnt : ℕ × ℕ × ℕ)
    (data : List ℚ) (h1 : data.length < cnt.1 * (cnt.2.1 * cnt.2.2))
    (h2 : ∃ i ∈ interiorIndices cnt, data.length ≤ flatIdx cnt i) :
    readVoxels origin delta cnt data = .error .indexError := by
  obtain ⟨a, b, c⟩ := cnt
  obtain ⟨i, hmem, hle⟩ := h2
  have hm := List.mem_filter.mp hmem
  have hhalo : isHalo (a, b, c) i = false := by simpa using hm.2
  obtain ⟨p, hp⟩ := List.mem_iff_get?.mp hm.1
  have hflat : flatIdx (a, b, c) i = p := flatIdx_get?_gridIndices a b c p i hp
  have hw := readWalk_oob origin delta (a, b, c) data (gridIndices (a, b, c))
    0 [] p i hp hhalo (by omega)
  simp only [readVoxels, hw]

/-- Witness for C10: a 3×3×3 grid with a 13-value payload; the interior
index `(1,1,1)` sits at flat position 13, past the payload's end. -/
theorem payload_short_oob_c10_witness :
    readVoxels ((0 : ℚ), (0 : ℚ), (0 : ℚ)) 1 (3, 3, 3) (pay 13) =
      .error .indexError :=
  payload_short_oob_c10 ((0 : ℚ), (0 : ℚ), (0 : ℚ)) 1 (3, 3, 3) (pay 13)
    (by decide) ⟨(1, 1, 1), by decide, by decide⟩

/-! ### Delta-line failures -/

/-- A delta line whose nonzero-component count is not exactly one makes the
header parser exit. -/
lemma parseDelta_ne_one (t : ℚ × ℚ × ℚ) (h : nonzeroCount t ≠ 1) :
    parseDelta t = .error .formatError := by
  rcases hd : deltaNonzeros t with _ | ⟨a, _ | ⟨b, l⟩⟩
  · simp only [parseDelta, hd]
  · exact absurd (by simp [nonzeroCount, hd]) h
  · simp only [parseDelta, hd]

/-- The only error `parseDelta` can produce is the format error. -/
lemma parseDelta_error_eq (t : ℚ × ℚ × ℚ) (e : ReadErr)
    (h : parseDelta t = .error e) : e = .formatError := by
  unfold parseDelta at h
  split at h
  · cases h
  · injection h with h2
    exact h2.symm

/-- If any delta line of the header fails to parse, the whole delta fold
exits with the format error. -/
lemma parseDeltas_error (ts : List (ℚ × ℚ × ℚ)) :
    ∀ d : ℚ, (∃ t ∈ ts, parseDelta t = .error .formatError) →
      parseDeltas ts d = .error .formatError := by
  induction ts with
  | nil => intro d h; simp at h
  | cons t ts ih =>
    intro d h
    simp only [parseDeltas]
    cases hp : parseDelta t with
    | error e =>
      have he := parseDelta_error_eq t e hp
      subst he
      rfl
    | ok d' =>
      obtain ⟨t', ht', he⟩ := h
      rcases List.mem_cons.mp ht' with rfl | ht'
      · rw [hp] at he; cases he
      · exact ih d' ⟨t', ht', he⟩

/-- If some file in the list fails to read, the file loop cannot succeed. -/
lemma processFiles_readFile_ok :
    ∀ (fs : List DXFile) (idx : ℕ) (acc acc' : MergeAcc),
      processFiles fs idx acc = .ok acc' → ∀ g ∈ fs, ∃ r, readFile g = .ok r := by
  intro fs
  induction fs with
  | nil => intro idx acc acc' _ g hg; simp at hg
  | cons f fs ih =>
    intro idx acc acc' h g hg
    simp only [processFiles] at h
    cases hr : readFile f with
    | error e => rw [hr] at h; cases h
    | ok r =>
      rw [hr] at h
      rcases List.mem_cons.mp hg with rfl | hg
      · exact ⟨r, hr⟩
      · exact ih _ _ _ h g hg

/-- C7: a file containing a delta line with more than one nonzero spacing
component fails to read with the fatal format error, and any merge whose
input list contains that file produces no output file. -/
theorem delta_ambiguous_c7 (f : DXFile) (t : ℚ × ℚ × ℚ) (ht : t ∈ f.deltaLines)
    (h : 1 < nonzeroCount t) :
    readFile f = .error .formatError ∧
      ∀ fs : List DXFile, f ∈ fs → isOutput (mergeMain fs) = false := by
  have hp := parseDeltas_error f.deltaLines 0
    ⟨t, ht, parseDelta_ne_one t (by omega)⟩
  have hread : readFile f = .error .formatError := by
    simp only [readFile, hp]
  refine ⟨hread, ?_⟩
  intro fs hfs
  cases hm : processFiles fs 0 initAcc with
  | error e => simp [mergeMain, hm, isOutput]
  | ok acc =>
    exfalso
    obtain ⟨r, hr⟩ := processFiles_readFile_ok fs 0 initAcc acc hm f hfs
    rw [hread] at hr
    cases hr

/-- File with an ambiguous delta line `delta 1.0 1.0 0`. -/
def fBad : DXFile :=
  ⟨((0 : ℚ), (0 : ℚ), (0 : ℚ)), [((1 : ℚ), (1 : ℚ), (0 : ℚ))], (3, 3, 3), 27, pay 27⟩

/-- Witness for C7 at the concrete file `fBad`. -/
theorem delta_ambiguous_c7_witness :
    readFile fBad = .error .formatError ∧ isOutput (mergeMain [fBad]) = false :=
  ⟨(delta_ambiguous_c7 fBad ((1 : ℚ), (1 : ℚ), (0 : ℚ))
      (by with_unfolding_all decide) (by with_unfolding_all decide)).1,
   (delta_ambiguous_c7 fBad ((1 : ℚ), (1 : ℚ), (0 : ℚ))
      (by with_unfolding_all decide) (by with_unfolding_all decide)).2
     [fBad] (by simp)⟩

/-- C9: a delta line whose three components are all zero also makes the
parser exit with the same fatal delta error, and any file containing such a
line fails to read with that error. -/
theorem delta_all_zero_c9 (t : ℚ × ℚ × ℚ) (h : nonzeroCount t = 0) :
    parseDelta t = .error .formatError ∧
      ∀ f : DXFile, t ∈ f.deltaLines → readFile f = .error .formatError := by
  have h1 : parseDelta t = .error .formatError := parseDelta_ne_one t (by omega)
  refine ⟨h1, ?_⟩
  intro f ht
  have hp := parseDeltas_error f.deltaLines 0 ⟨t, ht, h1⟩
  simp only [readFile, hp]

/-- File with the all-zero delta line `delta 0 0 0`. -/
def fZero : DXFile :=
  ⟨((0 : ℚ), (0 : ℚ), (0 : ℚ)), [((0 : ℚ), (0 : ℚ), (0 : ℚ))], (3, 3, 3), 27, pay 27⟩

/-- Witness for C9 at the concrete line `(0, 0, 0)` and file `fZero`. -/
theorem delta_all_zero_c9_witness :
    parseDelta ((0 : ℚ), (0 : ℚ), (0 : ℚ)) = .error .formatError ∧
      readFile fZero = .error .formatError :=
  ⟨(delta_all_zero_c9 ((0 : ℚ), (0 : ℚ), (0 : ℚ)) (by with_unfolding_all decide)).1,
   (delta_all_zero_c9 ((0 : ℚ), (0 : ℚ), (0 : ℚ)) (by with_unfolding_all decide)).2
     fZero (by with_unfolding_all decide)⟩

/-! ### Counting halo and interior voxels -/

lemma flatMap_congr {α β : Type} {l : List α} {f g : α → List β}
    (h : ∀ a ∈ l, f a = g a) : l.flatMap f = l.flatMap g := by
  induction l with
  | nil => rfl
  | cons a l ih =>
    simp only [List.flatMap_cons]
    rw [h a (List.mem_cons_self a l), ih (fun b hb => h b (List.mem_cons_of_mem a hb))]

lemma flatMap_filter_eq {α β : Type} (l : List α) (q : α → Bool) (f : α → List β) :
    (∀ a ∈ l, q a = false → f a = []) →
      l.flatMap f = (l.filter q).flatMap f := by
  induction l with
  | nil => intro _; rfl
  | cons a l ih =>
    intro h
    have htail := ih (fun b hb => h b (List.mem_cons_of_mem a hb))
    cases hq : q a with
    | false =>
      rw [List.filter_cons_of_neg (by simp [hq])]
      simp only [List.flatMap_cons, h a (List.mem_cons_self a l) hq,
        List.nil_append]
      exact htail
    | true =>
      rw [List.filter_cons_of_pos hq]
      simp only [List.flatMap_cons]
      rw [htail]

lemma length_flatMap_const {α β : Type} (l : List α) (g : α → List β) (k : ℕ) :
    (∀ a ∈ l, (g a).length = k) → (l.flatMap g).length = l.length * k := by
  induction l with
  | nil => intro _; simp
  | cons a l ih =>
    intro h
    simp only [List.flatMap_cons, List.length_append, List.length_cons,
      h a (List.mem_cons_self a l), ih (fun b hb => h b (List.mem_cons_of_mem a hb))]
    ring

/-- Decomposition of `range c` into first index, middle block, last index. -/
lemma range_decomp (c : ℕ) (h : 2 ≤ c) :
    List.range c = [0] ++ ((List.range (c - 2)).map (fun j => 1 + j) ++ [c - 1]) := by
  obtain ⟨d, rfl⟩ : ∃ d, c = 1 + d + 1 := ⟨c - 2, by omega⟩
  have e1 : 1 + d + 1 - 2 = d := by omega
  have e2 : 1 + d + 1 - 1 = 1 + d := by omega
  rw [e1, e2, List.range_add, List.range_add]
  simp [List.range_succ]

/-- Non-edge index test on one axis: neither the first nor the last index. -/
def notEdge (n k : ℕ) : Bool := !(k == 0 || k == n - 1)

lemma filter_notEdge_range (n : ℕ) (h : 2 ≤ n) :
    (List.range n).filter (notEdge n) = (List.range (n - 2)).map (fun j => 1 + j) := by
  rw [range_decomp n h, List.filter_append, List.filter_append]
  have h0 : List.filter (notEdge n) [0] = [] := by simp [notEdge]
  have h1 : List.filter (notEdge n) [n - 1] = [] := by simp [notEdge]
  have h2 : List.filter (notEdge n) ((List.range (n - 2)).map (fun j => 1 + j)) =
      (List.range (n - 2)).map (fun j => 1 + j) := by
    apply List.filter_eq_self.mpr
    intro x hx
    obtain ⟨j, hj, rfl⟩ := List.mem_map.mp hx
    have hj' := List.mem_range.mp hj
    simp only [notEdge, Bool.not_eq_true', Bool.or_eq_false_iff, beq_eq_false_iff_ne]
    omega
  rw [h0, h1, h2, List.nil_append, List.append_nil]

lemma length_filter_notEdge (n : ℕ) (h : 2 ≤ n) :
    ((List.range n).filter (notEdge n)).length = n - 2 := by
  rw [filter_notEdge_range n h, List.length_map, List.length_range]

lemma length_filter_split {α : Type} (l : List α) (p : α → Bool) :
    (l.filter p).length + (l.filter (fun a => !p a)).length = l.length := by
  induction l with
  | nil => rfl
  | cons a l ih =>
    cases hp : p a <;> simp [List.filter_cons, hp] <;> omega

/-- Structure of the interior indices: the three axes filtered independently
of each other. -/
lemma interior_eq (a b c : ℕ) :
    interiorIndices (a, b, c) =
      ((List.range a).filter (notEdge a)).flatMap (fun x =>
        ((List.range b).filter (notEdge b)).flatMap (fun y =>
          ((List.range c).filter (notEdge c)).map (fun z => (x, y, z)))) := by
  unfold interiorIndices gridIndices
  rw [List.filter_flatMap]
  rw [flatMap_filter_eq (List.range a) (notEdge a) _ ?hx]
  case hx =>
    intro x _ hxe
    have hx0 : x = 0 ∨ x = a - 1 := by
      by_contra hcon
      push_neg at hcon
      simp [notEdge, hcon.1, hcon.2] at hxe
    apply List.filter_eq_nil_iff.mpr
    intro i hi
    obtain ⟨y, _, hy2⟩ := List.mem_flatMap.mp hi
    obtain ⟨z, _, rfl⟩ := List.mem_map.mp hy2
    rcases hx0 with rfl | hxe1
    · simp [isHalo]
    · simp [isHalo, hxe1]
  apply flatMap_congr
  intro x hx
  have hxe : notEdge a x = true := (List.mem_filter.mp hx).2
  rw [List.filter_flatMap]
  rw [flatMap_filter_eq (List.range b) (notEdge b) _ ?hy]
  case hy =>
    intro y _ hye
    have hy0 : y = 0 ∨ y = b - 1 := by
      by_contra hcon
      push_neg at hcon
      simp [notEdge, hcon.1, hcon.2] at hye
    apply List.filter_eq_nil_iff.mpr
    intro i hi
    obtain ⟨z, _, rfl⟩ := List.mem_map.mp hi
    rcases hy0 with rfl | hye1
    · simp [isHalo]
    · simp [isHalo, hye1]
  apply flatMap_congr
  intro y hy
  have hye : notEdge b y = true := (List.mem_filter.mp hy).2
  rw [List.filter_map]
  apply congrArg
  apply List.filter_congr
  intro z _
  have hxne : x ≠ 0 ∧ x ≠ a - 1 := by simpa [notEdge] using hxe
  have hyne : y ≠ 0 ∧ y ≠ b - 1 := by simpa [notEdge] using hye
  have hx1 : (x == 0) = false := beq_eq_false_iff_ne.mpr hxne.1
  have hx2 : (x == a - 1) = false := beq_eq_false_iff_ne.mpr hxne.2
  have hy1 : (y == 0) = false := beq_eq_false_iff_ne.mpr hyne.1
  have hy2 : (y == b - 1) = false := beq_eq_false_iff_ne.mpr hyne.2
  simp only [Function.comp_apply, isHalo, notEdge, hx1, hx2, hy1, hy2,
    Bool.false_or]

/-- The interior of an `a×b×c` grid has `(a-2)·(b-2)·(c-2)` indices. -/
lemma interior_length (a b c : ℕ) (ha : 2 ≤ a) (hb : 2 ≤ b) (hc : 2 ≤ c) :
    (interiorIndices (a, b, c)).length = (a - 2) * ((b - 2) * (c - 2)) := by
  rw [interior_eq a b c]
  rw [length_flatMap_const _ _ ((b - 2) * (c - 2)) ?inner]
  · rw [length_filter_notEdge a ha]
  case inner =>
    intro x _
    rw [length_flatMap_const _ _ (c - 2) ?innermost]
    · rw [length_filter_notEdge b hb]
    case innermost =>
      intro y _
      rw [List.length_map, length_filter_notEdge c hc]

/-- C4: for `a, b, c ≥ 3` the surface formula of the script equals the
brute-force count of halo indices of the `a×b×c` grid, which is also
`a·b·c - (a-2)·(b-2)·(c-2)`. -/
theorem halo_formula_c4 (a b c : ℕ) (ha : 3 ≤ a) (hb : 3 ≤ b) (hc : 3 ≤ c) :
    surfaceCount (a, b, c) =
        (((gridIndices (a, b, c)).filter (fun i => isHalo (a, b, c) i)).length : ℤ) ∧
      surfaceCount (a, b, c) =
        ((a : ℕ) : ℤ) * ((b : ℕ) : ℤ) * ((c : ℕ) : ℤ) -
          (((a : ℕ) : ℤ) - 2) * ((((b : ℕ) : ℤ) - 2) * (((c : ℕ) : ℤ) - 2)) := by
  have hint : (interiorIndices (a, b, c)).length = (a - 2) * ((b - 2) * (c - 2)) :=
    interior_length a b c (by omega) (by omega) (by omega)
  have hlen := length_gridIndices a b c
  have hsplit : ((gridIndices (a, b, c)).filter (fun i => isHalo (a, b, c) i)).length +
      (interiorIndices (a, b, c)).length = (gridIndices (a, b, c)).length := by
    have h := length_filter_split (gridIndices (a, b, c)) (fun i => isHalo (a, b, c) i)
    simpa [interiorIndices] using h
  constructor
  · have hhalo : ((gridIndices (a, b, c)).filter (fun i => isHalo (a, b, c) i)).length =
        a * (b * c) - (a - 2) * ((b - 2) * (c - 2)) := by omega
    have hle : (a - 2) * ((b - 2) * (c - 2)) ≤ a * (b * c) := by omega
    rw [hhalo, Nat.cast_sub hle]
    push_cast [Nat.cast_sub (show 2 ≤ a by omega), Nat.cast_sub (show 2 ≤ b by omega),
      Nat.cast_sub (show 2 ≤ c by omega)]
    simp only [surfaceCount]
    ring
  · simp only [surfaceCount]
    ring

/-- Witness for C4 at the concrete 3×4×5 grid (surface count 54). -/
theorem halo_formula_c4_witness :
    surfaceCount (3, 4, 5) =
        (((gridIndices (3, 4, 5)).filter (fun i => isHalo (3, 4, 5) i)).length : ℤ) ∧
      surfaceCount (3, 4, 5) =
        ((3 : ℕ) : ℤ) * ((4 : ℕ) : ℤ) * ((5 : ℕ) : ℤ) -
          (((3 : ℕ) : ℤ) - 2) * ((((4 : ℕ) : ℤ) - 2) * (((5 : ℕ) : ℤ) - 2)) :=
  halo_formula_c4 3 4 5 (by decide) (by decide) (by decide)

/-! ### Merging dicts: later files win on key collisions -/

/-- First-defined choice of two optional values. -/
def oFirst (o1 o2 : Option ℚ) : Option ℚ :=
  match o1 with
  | some v => some v
  | none => o2

lemma oFirst_none_right (o : Option ℚ) : oFirst o none = o := by
  cases o <;> rfl

/-- Keys of a `VoxelMap`, in order. -/
def vmKeys (m : VoxelMap) : List Coord := m.map Prod.fst

lemma vmFind_append (m1 m2 : VoxelMap) (k : Coord) :
    vmFind (m1 ++ m2) k = oFirst (vmFind m1 k) (vmFind m2 k) := by
  induction m1 with
  | nil => rfl
  | cons p m ih =>
    simp only [List.cons_append, vmFind]
    by_cases h : k = p.1
    · simp [h, oFirst]
    · simp [h, ih]

lemma vmFind_vmErase (m : VoxelMap) (k k' : Coord) :
    vmFind (vmErase m k) k' = if k' = k then none else vmFind m k' := by
  induction m with
  | nil => simp [vmErase, vmFind]
  | cons p m ih =>
    by_cases h1 : p.1 = k
    · by_cases h2 : k' = k
      · subst h2
        simp [vmErase, h1, ih]
      · have h3 : ¬k' = p.1 := by rw [h1]; exact h2
        simp [vmErase, vmFind, h1, ih, h2, h3]
    · by_cases h2 : k' = p.1
      · have h3 : ¬k' = k := by rw [h2]; exact h1
        simp [vmErase, vmFind, h1, h2, h3]
      · simp [vmErase, vmFind, h1, h2, ih]

lemma vmFind_vmInsert (m : VoxelMap) (k k' : Coord) (v : ℚ) :
    vmFind (vmInsert m k v) k' = if k' = k then some v else vmFind m k' := by
  rw [vmInsert, vmFind_append, vmFind_vmErase]
  by_cases h : k' = k
  · simp [h, oFirst, vmFind]
  · cases hv : vmFind m k' <;> simp [h, hv, oFirst, vmFind]

lemma vmFind_eq_none (m : VoxelMap) (k : Coord) (h : k ∉ vmKeys m) :
    vmFind m k = none := by
  induction m with
  | nil => rfl
  | cons p m ih =>
    have h1 : ¬k = p.1 := by
      intro he; exact h (by simp [vmKeys, he])
    have h2 : k ∉ vmKeys m := by
      intro hm; exact h (by simp [vmKeys] at hm ⊢; exact .inr hm)
    simp [vmFind, h1, ih h2]

/-- Python `d1.update(d2)` looks up like: `d2`'s binding first, else `d1`'s,
provided `d2` has unique keys. -/
lemma vmFind_vmUpdate (m2 : VoxelMap) :
    ∀ m1 : VoxelMap, (vmKeys m2).Nodup → ∀ k,
      vmFind (vmUpdate m1 m2) k = oFirst (vmFind m2 k) (vmFind m1 k) := by
  induction m2 with
  | nil => intro m1 _ k; rfl
  | cons p m2 ih =>
    intro m1 h k
    have hcons : p.1 ∉ vmKeys m2 ∧ (vmKeys m2).Nodup := by
      simpa [vmKeys] using h
    have hstep : vmUpdate m1 (p :: m2) = vmUpdate (vmInsert m1 p.1 p.2) m2 := rfl
    rw [hstep, ih (vmInsert m1 p.1 p.2) hcons.2 k, vmFind_vmInsert]
    by_cases hk : k = p.1
    · subst hk
      have hnone : vmFind m2 p.1 = none := vmFind_eq_none m2 p.1 hcons.1
      simp [vmFind, hnone, oFirst]
    · simp [vmFind, hk, oFirst]

lemma vmErase_eq_filter (m : VoxelMap) (k : Coord) :
    vmErase m k = m.filter (fun p => decide (p.1 ≠ k)) := by
  induction m with
  | nil => rfl
  | cons p m ih =>
    by_cases h : p.1 = k <;> simp [vmErase, List.filter_cons, h, ih]

lemma nodup_vmInsert (m : VoxelMap) (k : Coord) (v : ℚ)
    (h : (vmKeys m).Nodup) : (vmKeys (vmInsert m k v)).Nodup := by
  rw [vmInsert, vmKeys, List.map_append]
  apply List.nodup_append.mpr
  refine ⟨?_, by simp, ?_⟩
  · rw [vmErase_eq_filter]
    exact List.Nodup.sublist (List.Sublist.map Prod.fst (List.filter_sublist m)) h
  · intro x hx
    rw [vmErase_eq_filter] at hx
    obtain ⟨p, hp, rfl⟩ := List.mem_map.mp hx
    have := (List.mem_filter.mp hp).2
    simp only [decide_eq_true_eq] at this
    simpa using this

/-- The dict built by the walk keeps unique keys. -/
lemma readWalk_nodup (origin : Coord) (delta : ℚ) (cnt : ℕ × ℕ × ℕ)
    (data : List ℚ) :
    ∀ (is : List (ℕ × ℕ × ℕ)) (c : ℕ) (m : VoxelMap) (r : ℕ × VoxelMap),
      readWalk origin delta cnt data is c m = .ok r →
      (vmKeys m).Nodup → (vmKeys r.2).Nodup := by
  intro is
  induction is with
  | nil =>
    intro c m r h hm
    simp only [readWalk] at h
    cases h
    exact hm
  | cons i is ih =>
    intro c m r h hm
    simp only [readWalk] at h
    by_cases hh : isHalo cnt i = true
    · rw [if_pos hh] at h
      exact ih _ _ _ h hm
    · rw [if_neg hh] at h
      cases hg : data.get? c with
      | none => rw [hg] at h; cases h
      | some v =>
        rw [hg] at h
        exact ih _ _ _ h (nodup_vmInsert m (coordOf origin delta i) v hm)

/-- The dict produced by the voxel-reading stage has unique keys. -/
lemma readVoxels_ok_nodup (origin : Coord) (delta : ℚ) (cnt : ℕ × ℕ × ℕ)
    (data : List ℚ) (m : VoxelMap)
    (h : readVoxels origin delta cnt data = .ok m) : (vmKeys m).Nodup := by
  unfold readVoxels at h
  split at h
  · cases h
  · rename_i r hw
    split at h
    · cases h
      exact readWalk_nodup origin delta cnt data _ 0 [] r hw (by simp [vmKeys])
    · cases h

/-- The dict produced by reading a file has unique keys. -/
lemma readFile_nodup (f : DXFile) (r : ℚ × VoxelMap)
    (h : readFile f = .ok r) : (vmKeys r.2).Nodup := by
  unfold readFile at h
  split at h
  · cases h
  · rename_i d hd
    split at h
    · cases h
    · rename_i m hv
      cases h
      exact readVoxels_ok_nodup f.origin d f.gridcounts f.payload m hv

/-- Lookup through the whole file loop: a key's final value comes from the
last file containing it, else from the starting accumulator. -/
lemma processFiles_find (fs : List DXFile) :
    ∀ (idx : ℕ) (acc acc' : MergeAcc),
      processFiles fs idx acc = .ok acc' → ∀ k,
        vmFind acc'.dict k = oFirst (lastHit fs k) (vmFind acc.dict k) := by
  induction fs with
  | nil =>
    intro idx acc acc' h k
    simp only [processFiles] at h
    cases h
    simp [lastHit, oFirst]
  | cons f fs ih =>
    intro idx acc acc' h k
    simp only [processFiles] at h
    cases hr : readFile f with
    | error e => rw [hr] at h; cases h
    | ok r =>
      rw [hr] at h
      have hstep := ih (idx + 1) _ acc' h k
      rw [hstep]
      simp only [vmUpdate] at hstep ⊢
      rw [show (List.foldl (fun m p => vmInsert m p.1 p.2) acc.dict r.2) =
        vmUpdate acc.dict r.2 from rfl,
        vmFind_vmUpdate r.2 acc.dict (readFile_nodup f r hr) k]
      have hfd : fileDict f = some r.2 := by simp [fileDict, hr]
      have hG : (fileDict f).bind (fun d => vmFind d k) = vmFind r.2 k := by
        rw [hfd]; rfl
      rw [lastHit, lastHit, List.filterMap_cons]
      cases hv : vmFind r.2 k with
      | none => rw [hG, hv]; simp [oFirst]
      | some v =>
        rw [hG, hv, List.getLast?_cons]
        cases hl : (fs.filterMap fun g => (fileDict g).bind fun d => vmFind d k).getLast? with
        | none => simp [oFirst, hl]
        | some w => simp [oFirst, hl]

/-- C6: after the file loop, every coordinate key of the merged global dict
is bound to the value from the last file (in processing order) whose dict
contains that key — union of the per-file dicts with later files winning on
collisions. -/
theorem merge_last_write_wins_c6 (fs : List DXFile) (acc : MergeAcc)
    (h : processFiles fs 0 initAcc = .ok acc) (k : Coord) :
    vmFind acc.dict k = lastHit fs k := by
  have hfind := processFiles_find fs 0 initAcc acc h k
  rw [hfind]
  show oFirst (lastHit fs k) (vmFind [] k) = lastHit fs k
  rw [show vmFind [] k = none from rfl, oFirst_none_right]

/-! ### Derived geometry of the combined box -/

lemma listMin_le_listMax (l : List ℚ) (h : l ≠ []) : listMin l ≤ listMax l := by
  induction l with
  | nil => exact absurd rfl h
  | cons q t iht =>
    cases t with
    | nil => simp [listMin, listMax]
    | cons r s =>
      simp only [listMin, listMax]
      calc min q (listMin (r :: s)) ≤ q := min_le_left _ _
        _ ≤ max q (listMax (r :: s)) := le_max_left _ _

lemma pyRound_add_one (q : ℚ) (h : 0 ≤ q) : pyRound (q + 1) = pyRound q + 1 := by
  unfold pyRound
  rw [if_pos (by linarith), if_pos h]
  have harith : q + 1 + 1/2 = (q + 1/2) + 1 := by ring
  rw [harith, Int.floor_add_one]

/-- For nonnegative `(hi - lo)/s`, the script's count
`round((hi-lo)/s + 1)` equals `round((hi-lo)/s) + 1`. -/
lemma cntOf_eq (lo hi s : ℚ) (hle : lo ≤ hi) (hs : 0 < s) :
    cntOf lo hi s = pyRound ((hi - lo) / s) + 1 := by
  unfold cntOf
  exact pyRound_add_one _ (div_nonneg (by linarith) (le_of_lt hs))

/-- After the first file, the file loop never touches the origin again. -/
lemma processFiles_origin (fs : List DXFile) :
    ∀ (idx : ℕ) (acc acc' : MergeAcc),
      processFiles fs idx acc = .ok acc' → idx ≠ 0 →
      acc'.origin = acc.origin := by
  induction fs with
  | nil =>
    intro idx acc acc' h _
    cases h
    rfl
  | cons f fs ih =>
    intro idx acc acc' h hidx
    simp only [processFiles] at h
    cases hr : readFile f with
    | error e => rw [hr] at h; cases h
    | ok r =>
      rw [hr] at h
      rw [ih (idx + 1) _ acc' h (by omega)]
      simp [hidx]

/-- C3: after the file loop, the derived per-axis counts over the keys of
the global dict equal `round((max-min)/spacing) + 1` (for positive spacing),
any failure of the three merge invariants is a fatal integrity error raised
before an output is produced, and the provisional combined origin is the
first file's origin shifted by one spacing per axis. -/
theorem merge_geometry_c3 (acc : MergeAcc) (hne : acc.dict ≠ [])
    (hs : 0 < acc.spacing) :
    (cntX acc =
        pyRound ((listMax (keysX acc.dict) - listMin (keysX acc.dict)) / acc.spacing) + 1 ∧
      cntY acc =
        pyRound ((listMax (keysY acc.dict) - listMin (keysY acc.dict)) / acc.spacing) + 1 ∧
      cntZ acc =
        pyRound ((listMax (keysZ acc.dict) - listMin (keysZ acc.dict)) / acc.spacing) + 1) ∧
    (mergeChecks acc = false → mergePost acc = .error .integrityError) ∧
    (∀ (f : DXFile) (fs : List DXFile) (acc' : MergeAcc),
      processFiles (f :: fs) 0 initAcc = .ok acc' → acc'.origin = firstOrigin f) := by
  have hkx : keysX acc.dict ≠ [] := by
    intro h
    exact hne (by simpa [keysX] using congrArg List.length h)
  have hky : keysY acc.dict ≠ [] := by
    intro h
    exact hne (by simpa [keysY] using congrArg List.length h)
  have hkz : keysZ acc.dict ≠ [] := by
    intro h
    exact hne (by simpa [keysZ] using congrArg List.length h)
  refine ⟨⟨?_, ?_, ?_⟩, ?_, ?_⟩
  · exact cntOf_eq _ _ _ (listMin_le_listMax _ hkx) hs
  · exact cntOf_eq _ _ _ (listMin_le_listMax _ hky) hs
  · exact cntOf_eq _ _ _ (listMin_le_listMax _ hkz) hs
  · intro hchk
    unfold mergePost
    rw [if_neg hne, if_neg (by simp [hchk])]
  · intro f fs acc' h
    simp only [processFiles] at h
    cases hr : readFile f with
    | error e => rw [hr] at h; cases h
    | ok r =>
      rw [hr] at h
      rw [processFiles_origin fs 1 _ acc' h (by omega)]
      simp [firstOrigin, hr]

/-- C2: whenever the merge post-processing succeeds, its output payload is
exactly the result of the lookup loop over the triple list of the three
derived linspace axes (x outer, y middle, z inner, three-decimal rounding at
each lookup), and its length equals the product of the three derived
counts; and when that lookup loop fails (a missing voxel), the merge fails
with the same error. -/
theorem merge_linearize_c2 (acc : MergeAcc) :
    (∀ out : MergeOut, mergePost acc = .ok out →
      linLoop acc.dict [] (tripleList (axisX acc) (axisY acc) (axisZ acc)) =
          .ok out.data ∧
        (out.data.length : ℤ) = cntX acc * cntY acc * cntZ acc) ∧
    (acc.dict ≠ [] → mergeChecks acc = true →
      ¬(cntX acc < 0 ∨ cntY acc < 0 ∨ cntZ acc < 0) →
      ∀ e : MergeErr,
        linLoop acc.dict [] (tripleList (axisX acc) (axisY acc) (axisZ acc)) =
            .error e →
        mergePost acc = .error e) := by
  constructor
  · intro out hout
    unfold mergePost at hout
    by_cases h1 : acc.dict = []
    · rw [if_pos h1] at hout; cases hout
    · rw [if_neg h1] at hout
      by_cases h2 : mergeChecks acc = true
      · rw [if_pos h2] at hout
        by_cases h3 : cntX acc < 0 ∨ cntY acc < 0 ∨ cntZ acc < 0
        · rw [if_pos h3] at hout; cases hout
        · rw [if_neg h3] at hout
          cases hl : linLoop acc.dict []
              (tripleList (axisX acc) (axisY acc) (axisZ acc)) with
          | error e => rw [hl] at hout; cases hout
          | ok arr =>
            rw [hl] at hout
            have hout2 : (if (arr.length : ℤ) = acc.ngrid then
                  (.ok ⟨acc.origin, (cntX acc, cntY acc, cntZ acc), acc.ngrid,
                    acc.spacing, arr⟩ : Except MergeErr MergeOut)
                else .error .integrityError) = .ok out := hout
            by_cases h4 : (arr.length : ℤ) = acc.ngrid
            · rw [if_pos h4] at hout2
              cases hout2
              refine ⟨rfl, ?_⟩
              have hg : acc.ngrid = cntX acc * cntY acc * cntZ acc := by
                simp only [mergeChecks, Bool.and_eq_true, decide_eq_true_eq] at h2
                exact h2.1.2
              exact h4.trans hg
            · rw [if_neg h4] at hout2; cases hout2
      · rw [if_neg h2] at hout; cases hout
  · intro h1 h2 h3 e hl
    unfold mergePost
    rw [if_neg h1, if_pos h2, if_neg h3, hl]

/-! ### Concrete inputs for the merge-level witnesses -/

/-- Concrete 3×3×3 file at origin `(0,0,0)` with payload `0,…,26`. -/
def fA : DXFile :=
  ⟨((0 : ℚ), (0 : ℚ), (0 : ℚ)),
   [((1 : ℚ), (0 : ℚ), (0 : ℚ)), ((0 : ℚ), (1 : ℚ), (0 : ℚ)), ((0 : ℚ), (0 : ℚ), (1 : ℚ))],
   (3, 3, 3), 27, pay 27⟩

/-- Concrete 3×3×3 file at the same origin with payload `100,…,126`. -/
def fB : DXFile :=
  ⟨((0 : ℚ), (0 : ℚ), (0 : ℚ)),
   [((1 : ℚ), (0 : ℚ), (0 : ℚ)), ((0 : ℚ), (1 : ℚ), (0 : ℚ)), ((0 : ℚ), (0 : ℚ), (1 : ℚ))],
   (3, 3, 3), 27, (List.range 27).map (fun n => ((n : ℚ) + 100))⟩

/-- Accumulator state after processing `[fA, fB]`. -/
def accAB : MergeAcc :=
  ⟨1, ((1 : ℚ), (1 : ℚ), (1 : ℚ)), 2, [(((1 : ℚ), (1 : ℚ), (1 : ℚ)), 113)]⟩

/-- Witness for C6: processing `[fA, fB]` makes the overlapping interior key
`(1,1,1)` carry the second file's value `113`, the last hit. -/
theorem merge_last_write_wins_c6_witness :
    vmFind accAB.dict ((1 : ℚ), (1 : ℚ), (1 : ℚ)) =
        lastHit [fA, fB] ((1 : ℚ), (1 : ℚ), (1 : ℚ)) ∧
      lastHit [fA, fB] ((1 : ℚ), (1 : ℚ), (1 : ℚ)) = some 113 :=
  ⟨merge_last_write_wins_c6 [fA, fB] accAB (by with_unfolding_all decide)
      ((1 : ℚ), (1 : ℚ), (1 : ℚ)),
   by with_unfolding_all decide⟩

/-- Accumulator whose expected count `2` disagrees with its dict size `1`. -/
def accBadCount : MergeAcc :=
  ⟨1, ((0 : ℚ), (0 : ℚ), (0 : ℚ)), 2, [(((0 : ℚ), (0 : ℚ), (0 : ℚ)), 5)]⟩

/-- Accumulator state after processing `[fA]` alone. -/
def accA1 : MergeAcc :=
  ⟨1, ((1 : ℚ), (1 : ℚ), (1 : ℚ)), 1, [(((1 : ℚ), (1 : ℚ), (1 : ℚ)), 13)]⟩

/-- Witness for C3: the derived `x` count formula at `accBadCount`, the
integrity failure of its mismatched counts, and the provisional origin of a
one-file run. -/
theorem merge_geometry_c3_witness :
    cntX accBadCount =
        pyRound ((listMax (keysX accBadCount.dict) -
          listMin (keysX accBadCount.dict)) / accBadCount.spacing) + 1 ∧
      mergePost accBadCount = .error .integrityError ∧
      accA1.origin = firstOrigin fA :=
  ⟨((merge_geometry_c3 accBadCount (by with_unfolding_all decide)
      (by with_unfolding_all decide)).1).1,
   (merge_geometry_c3 accBadCount (by with_unfolding_all decide)
      (by with_unfolding_all decide)).2.1 (by with_unfolding_all decide),
   (merge_geometry_c3 accBadCount (by with_unfolding_all decide)
      (by with_unfolding_all decide)).2.2 fA [] accA1
     (by with_unfolding_all decide)⟩

/-- Accumulator with a single voxel at the origin. -/
def accOne : MergeAcc :=
  ⟨1, ((0 : ℚ), (0 : ℚ), (0 : ℚ)), 1, [(((0 : ℚ), (0 : ℚ), (0 : ℚ)), 5)]⟩

/-- Output of the merge post-processing at `accOne`. -/
def outOne : MergeOut :=
  ⟨((0 : ℚ), (0 : ℚ), (0 : ℚ)), (1, 1, 1), 1, 1, [5]⟩

/-- Accumulator whose checks pass but whose derived `z` axis hits the
off-grid key `5/2`, so the lookup loop misses a voxel. -/
def accGap : MergeAcc :=
  ⟨1, ((0 : ℚ), (0 : ℚ), (0 : ℚ)), 4,
   [(((0 : ℚ), (0 : ℚ), (0 : ℚ)), 1), (((0 : ℚ), (0 : ℚ), (1 : ℚ)), 2),
    (((0 : ℚ), (0 : ℚ), (2 : ℚ)), 3), (((0 : ℚ), (0 : ℚ), (5 : ℚ)/2), 4)]⟩

/-- Witness for C2: at `accOne` the successful merge output is the lookup
loop's result of length `1·1·1`; at `accGap` the loop misses a voxel and the
merge fails with exactly that error. -/
theorem merge_linearize_c2_witness :
    (linLoop accOne.dict []
          (tripleList (axisX accOne) (axisY accOne) (axisZ accOne)) =
        .ok outOne.data ∧
      (outOne.data.length : ℤ) = cntX accOne * cntY accOne * cntZ accOne) ∧
    mergePost accGap = .error .missingVoxel :=
  ⟨(merge_linearize_c2 accOne).1 outOne (by with_unfolding_all decide),
   (merge_linearize_c2 accGap).2 (by with_unfolding_all decide)
     (by with_unfolding_all decide) (by with_unfolding_all decide)
     .missingVoxel (by with_unfolding_all decide)⟩

/-- Accumulator with a negative spacing `-1` (the delta parser accepts a
negative component) and an `x` extent of `1/2`. -/
def accNeg : MergeAcc :=
  ⟨-1, ((0 : ℚ), (0 : ℚ), (0 : ℚ)), 2,
   [(((0 : ℚ), (0 : ℚ), (0 : ℚ)), 1), (((1 : ℚ)/2, (0 : ℚ), (0 : ℚ)), 2)]⟩

/-- Counterexample to C3 as stated: at spacing `-1` and extent `1/2` the
code derives the `x` count as `round((max-min)/spacing + 1) = round(1/2) = 1`,
while the claimed formula gives `round(-1/2) + 1 = -1 + 1 = 0` (Python 2
rounds halves away from zero). -/
theorem merge_geometry_c3_counterexample :
    cntX accNeg = 1 ∧
      pyRound ((listMax (keysX accNeg.dict) - listMin (keysX accNeg.dict)) /
        accNeg.spacing) + 1 = 0 := by
  constructor
  · with_unfolding_all decide
  · with_unfolding_all decide
